import Mathlib

/-!
Shallow embedding of the posts-api repository core logic
(src/controllers/postsController.ts, src/routes/search.ts controller,
src/models/Tag.ts) and proofs of the frozen claims about it.

Strings are modelled as lists of characters (`Str`).  JavaScript string
operations used by the source (toLowerCase, split, trim, parseInt,
startsWith, the MongoDB regex filter) are embedded as executable Lean
functions translated from their exact use in the source.
-/

abbrev Str := List Char

/-- ASCII lower-casing of one character, as applied by
`name.toLowerCase()` at postsController.ts:244,529 and Tag.ts createTag. -/
def jsToLower (c : Char) : Char :=
  if 'A' ≤ c ∧ c ≤ 'Z' then Char.ofNat (c.toNat + 32) else c

/-- Membership in the character class `[a-z0-9]` of the slug regex. -/
def isSlugChar (c : Char) : Bool :=
  ('a' ≤ c && c ≤ 'z') || ('0' ≤ c && c ≤ '9')

/-- One character of the slug computation: the character after
lower-casing if it lies in `[a-z0-9]`, otherwise the dash that
`.replace(/[^a-z0-9]/g, '-')` substitutes. -/
def slugChar (c : Char) : Char :=
  let l := jsToLower c
  if isSlugChar l then l else '-'

/-- `name.toLowerCase().replace(/[^a-z0-9]/g, '-')`
(postsController.ts:244,529; Tag.ts createTag). -/
def slugify (s : Str) : Str :=
  s.map slugChar

/-- JS whitespace test for `trim()` (ASCII fragment actually exercised). -/
def isJsSpace (c : Char) : Bool :=
  c = ' ' || c = '\t' || c = '\n' || c = '\r'

/-- JavaScript `String.prototype.trim`. -/
def jsTrim (s : Str) : Str :=
  (s.dropWhile isJsSpace).reverse.dropWhile isJsSpace |>.reverse

/-- JavaScript `s.split(',')`: splitting the empty string yields one
empty piece, and separators at the ends yield empty pieces. -/
def splitComma (s : Str) : List Str :=
  match s with
  | [] => [[]]
  | c :: rest =>
    let tail := splitComma rest
    if c = ',' then [] :: tail
    else
      match tail with
      | [] => [[c]]
      | p :: ps => (c :: p) :: ps

/-- JavaScript `a.startsWith(b)` (used for the media-type check). -/
def jsStartsWith (s pre : Str) : Bool :=
  match pre, s with
  | [], _ => true
  | _ :: _, [] => false
  | p :: ps, c :: cs => p = c && jsStartsWith cs ps

/-- Decimal digit test. -/
def isDigitCh (c : Char) : Bool :=
  '0' ≤ c && c ≤ '9'

/-- Accumulate leading decimal digits left to right. -/
def digitsVal (acc : Nat) : Str → Nat
  | [] => acc
  | c :: cs =>
    if isDigitCh c then digitsVal (acc * 10 + (c.toNat - '0'.toNat)) cs
    else acc

/-- Value of the leading decimal digits of a list; none if the list does
not start with a digit. -/
def leadDigits : Str → Option Nat
  | [] => none
  | c :: cs =>
    if isDigitCh c then some (digitsVal (c.toNat - '0'.toNat) cs) else none

/-- JavaScript `parseInt(s, 10)`: skip leading whitespace, read an
optional sign and then leading decimal digits, ignore the rest;
`none` stands for `NaN` (no digit found). -/
def jsParseInt (s : Str) : Option Int :=
  let t := s.dropWhile isJsSpace
  match t with
  | '-' :: rest => (leadDigits rest).map (fun n => -(n : Int))
  | '+' :: rest => (leadDigits rest).map (fun n => (n : Int))
  | _ => (leadDigits t).map (fun n => (n : Int))

/-! ## Data model (src/models/Tag.ts, src/models/Post schema per its uses) -/

/-- A stored Tag record: identifier, display name, derived slug. -/
structure TagRec where
  tid : Nat
  name : Str
  slug : Str
deriving DecidableEq, Repr

/-- A stored Post record; `tags` holds Tag identifiers. -/
structure PostRec where
  pid : Nat
  title : Str
  description : Str
  imageUrl : Str
  tags : List Nat
deriving DecidableEq, Repr

/-- The durable state of the two document collections, with the
store-assigned identifier counters. -/
structure Store where
  posts : List PostRec
  tags : List TagRec
  nextTagId : Nat
  nextPostId : Nat
deriving DecidableEq, Repr

/-- `Tag.findOne({ slug })`: first stored tag with the given slug. -/
def findTagBySlug (ts : List TagRec) (s : Str) : Option TagRec :=
  ts.find? (fun t => t.slug == s)

/-- `Post.findById(id)`. -/
def findPostById (st : Store) (pid : Nat) : Option PostRec :=
  st.posts.find? (fun p => p.pid == pid)

/-! ## Tag resolution (postsController.ts:243-252 and 528-537) -/

/-- One iteration of the tag loop: slugify the name, look the slug up,
create a fresh Tag on a miss, and return the resulting identifier. -/
def resolveOne (st : Store) (name : Str) : Nat × Store :=
  let slug := slugify name
  match findTagBySlug st.tags slug with
  | some t => (t.tid, st)
  | none =>
    let t : TagRec := ⟨st.nextTagId, name, slug⟩
    (t.tid, { st with tags := st.tags ++ [t], nextTagId := st.nextTagId + 1 })

/-- The sequential `for (const tagName of tagArray)` loop, accumulating
ids in order. -/
def resolveTags (st : Store) (names : List Str) : List Nat × Store :=
  match names with
  | [] => ([], st)
  | n :: rest =>
    let (i, st1) := resolveOne st n
    let (is, st2) := resolveTags st1 rest
    (i :: is, st2)

/-- The `tags` field of a create/update request body: absent (or another
falsy value), a string, an array of strings, or some other truthy
non-string non-array value. -/
inductive RawTags
  | absent
  | str (s : Str)
  | arr (l : List Str)
  | other
deriving DecidableEq, Repr

/-- The `tagArray` the controllers build from the request's `tags` field:
nothing when `tags` is falsy, the split-and-trimmed pieces of a string,
the array itself, and the empty array for any other truthy value. -/
def tagNamesOf : RawTags → List Str
  | .absent => []
  | .str s => if s = [] then [] else (splitComma s).map jsTrim
  | .arr l => l
  | .other => []

/-- Tag ids resolved for a request, together with the store after any
tag creations. -/
def resolveRawTags (st : Store) (r : RawTags) : List Nat × Store :=
  resolveTags st (tagNamesOf r)

/-! ## Listing query construction (getPosts, postsController.ts:70-119) -/

/-- `parseInt(req.query.page as string) || 1`: an absent parameter
parses as NaN; NaN and 0 are falsy and fall back to the default. -/
def jsParseOrDefault (raw : Option Str) (dflt : Int) : Int :=
  match raw.bind jsParseInt with
  | none => dflt
  | some n => if n = 0 then dflt else n

/-- The `page` value getPosts computes. -/
def listPage (raw : Option Str) : Int := jsParseOrDefault raw 1

/-- The `limit` value getPosts computes. -/
def listLimit (raw : Option Str) : Int := jsParseOrDefault raw 10

/-- `skip = (page - 1) * limit`. -/
def listSkip (pageRaw limitRaw : Option Str) : Int :=
  (listPage pageRaw - 1) * listLimit limitRaw

/-- The filter getPosts builds: no restriction when the `tags` query
parameter is falsy; otherwise the post must have some tag id among the
ids of the stored tags whose slug occurs in the split-and-trimmed
parameter (an empty id set matches no post, as `$in: []` does). -/
def getPostsFilter (st : Store) (tagFilter : Option Str) : PostRec → Bool :=
  match tagFilter with
  | none => fun _ => true
  | some s =>
    if s = [] then fun _ => true
    else
      let slugs := (splitComma s).map jsTrim
      let tagIds := (st.tags.filter (fun t => slugs.contains t.slug)).map TagRec.tid
      fun p => p.tags.any (fun i => tagIds.contains i)

/-- `Math.ceil(total / limit)` for an integer limit:
the least integer at or above the quotient (ceil is minus the floor of
the negation; `Int.fdiv` is floor division). -/
def jsCeilDiv (total : Nat) (limit : Int) : Int :=
  -((-(total : Int)).fdiv limit)

/-- The pagination envelope `{page, limit, total, pages}`. -/
structure Pagination where
  page : Int
  limit : Int
  total : Nat
  pages : Int
deriving DecidableEq, Repr

/-- getPosts: builds the filter, applies the store's sort (an external
collaborator, passed in as `sortFn`), skips and limits, and counts the
matching documents.  Negative skip/limit are clamped by `Int.toNat`
(the opaque store's behavior on them is outside the core). -/
def getPosts (sortFn : List PostRec → List PostRec) (st : Store)
    (pageRaw limitRaw tagFilter : Option Str) : List PostRec × Pagination :=
  let page := listPage pageRaw
  let limit := listLimit limitRaw
  let pred := getPostsFilter st tagFilter
  let skip := (page - 1) * limit
  let matched := st.posts.filter pred
  let data := ((sortFn matched).drop skip.toNat).take limit.toNat
  let total := matched.length
  (data, ⟨page, limit, total, jsCeilDiv total limit⟩)

/-! ## Search query construction (searchPosts, src/routes/search controller) -/

/-- One regex pattern character against one text character under
`$options: 'i'`: the dot matches any character except newline, every
other supported character matches itself case-insensitively. -/
def reCharMatch (pc c : Char) : Bool :=
  if pc = '.' then !(c = '\n') else jsToLower pc = jsToLower c

/-- Whether the pattern matches at the very start of the text. -/
def reMatchHere : Str → Str → Bool
  | [], _ => true
  | _ :: _, [] => false
  | pc :: ps, c :: cs => reCharMatch pc c && reMatchHere ps cs

/-- Unanchored regex search: the pattern matches somewhere in the text.
This interprets MongoDB `$regex` for the pattern fragment consisting of
literal characters and the dot wildcard (see `reSupported`); patterns
outside that fragment are not given meaning by this embedding. -/
def reSearch (p : Str) : Str → Bool
  | [] => reMatchHere p []
  | c :: cs => reMatchHere p (c :: cs) || reSearch p cs

/-- PCRE metacharacters. -/
def isReMeta (c : Char) : Bool :=
  c = '\\' || c = '^' || c = '$' || c = '.' || c = '|' || c = '?' ||
  c = '*' || c = '+' || c = '(' || c = ')' || c = '[' || c = ']' ||
  c = Char.ofNat 123 || c = Char.ofNat 125

/-- Patterns this embedding interprets: literal characters and dots. -/
def reSupported (p : Str) : Bool :=
  p.all (fun c => c = '.' || !(isReMeta c))

/-- Patterns with no metacharacter at all. -/
def reLiteral (p : Str) : Bool :=
  p.all (fun c => !(isReMeta c))

/-- The needle is a case-insensitive prefix of the text. -/
def ciPrefixAt : Str → Str → Bool
  | [], _ => true
  | _ :: _, [] => false
  | pc :: ps, c :: cs => (jsToLower pc = jsToLower c) && ciPrefixAt ps cs

/-- Case-insensitive substring containment. -/
def containsCI (needle : Str) : Str → Bool
  | [] => ciPrefixAt needle []
  | c :: cs => ciPrefixAt needle (c :: cs) || containsCI needle cs

/-- The `$or` filter searchPosts builds: title or description matches
the query as a case-insensitive regex. -/
def searchFilter (q : Str) (p : PostRec) : Bool :=
  reSearch q p.title || reSearch q p.description

/-- Result of a search request: the 400 ValidationError for a missing
query, or data with the pagination numbers (`none` stands for NaN from
a failed parseInt; the opaque store's behavior on NaN skip/limit is
outside the core, so data is `none` then). -/
inductive SearchRes
  | missingQuery
  | results (data : Option (List PostRec)) (pageNum limitNum : Option Int)
      (total : Nat)
deriving DecidableEq, Repr

/-- The number searchPosts computes for `page`: the destructuring
default applies only when the parameter is absent; a present
non-numeric value parses to NaN (`none`). -/
def searchPageNum (raw : Option Str) : Option Int :=
  jsParseInt (raw.getD ("1".toList))

/-- The number searchPosts computes for `limit`. -/
def searchLimitNum (raw : Option Str) : Option Int :=
  jsParseInt (raw.getD ("10".toList))

/-- searchPosts: reject a falsy query, otherwise filter by the combined
regex predicate, then page through the matches (no sort is applied). -/
def searchPosts (st : Store) (qRaw pageRaw limitRaw : Option Str) : SearchRes :=
  match qRaw with
  | none => .missingQuery
  | some q =>
    if q = [] then .missingQuery
    else
      let pageNum := searchPageNum pageRaw
      let limitNum := searchLimitNum limitRaw
      let matched := st.posts.filter (searchFilter q)
      let data :=
        match pageNum, limitNum with
        | some pn, some ln =>
          some ((matched.drop ((pn - 1) * ln).toNat).take ln.toNat)
        | _, _ => none
      .results data pageNum limitNum matched.length

/-! ## Post assembler (createPost, updatePost, deletePost) -/

/-- An uploaded file as the controllers see it. -/
structure ImageFile where
  mimetype : Str
  size : Nat
deriving DecidableEq, Repr

/-- Outcomes of the external collaborators during one request: whether
the blob upload succeeds and the URL it returns, whether the blob
deletion succeeds, and whether the record persistence step succeeds. -/
structure ExtEnv where
  uploadOk : Bool
  uploadUrl : Str
  deleteOk : Bool
  persistOk : Bool
deriving DecidableEq, Repr

/-- Externally visible calls made by one request, in order. -/
inductive Ev
  | upload
  | blobDelete (url : Str)
  | persistCreate
  | persistUpdate (pid : Nat)
  | persistDelete (pid : Nat)
deriving DecidableEq, Repr

/-- The response outcome of a mutating request. -/
inductive Outcome
  | created (pid : Nat)
  | updated (p : PostRec)
  | deleted
  | validationError
  | notFound
  | serverError
deriving DecidableEq, Repr

/-- Result of running one mutating request: response outcome, resulting
store, and the trace of external calls attempted. -/
structure OpResult where
  res : Outcome
  st : Store
  events : List Ev
deriving DecidableEq, Repr

/-- The `'image/'` literal of the media-type check. -/
def imageMarker : Str := ("image/").toList

/-- `5 * 1024 * 1024`, the size bound of the controllers. -/
def maxImageBytes : Nat := 5 * 1024 * 1024

/-- JS truthiness of an optional string field. -/
def truthyStr : Option Str → Bool
  | none => false
  | some s => !(s = [])

/-- Request body of createPost. -/
structure CreateReq where
  title : Option Str
  description : Option Str
  image : Option ImageFile
  tags : RawTags
deriving DecidableEq, Repr

/-- createPost (postsController.ts:190-278): validations in source
order, then upload, then tag resolution, then persistence. -/
def createPost (env : ExtEnv) (st : Store) (r : CreateReq) : OpResult :=
  if !truthyStr r.title || !truthyStr r.description then
    ⟨.validationError, st, []⟩
  else
    match r.image with
    | none => ⟨.validationError, st, []⟩
    | some img =>
      if !(jsStartsWith img.mimetype imageMarker) then ⟨.validationError, st, []⟩
      else if maxImageBytes < img.size then ⟨.validationError, st, []⟩
      else if !env.uploadOk then ⟨.serverError, st, [.upload]⟩
      else
        let (tagIds, st1) := resolveRawTags st r.tags
        if !env.persistOk then ⟨.serverError, st1, [.upload, .persistCreate]⟩
        else
          let p : PostRec :=
            ⟨st1.nextPostId, r.title.getD [], r.description.getD [],
              env.uploadUrl, tagIds⟩
          ⟨.created p.pid,
            { st1 with posts := st1.posts ++ [p], nextPostId := st1.nextPostId + 1 },
            [.upload, .persistCreate]⟩

/-- Request body of updatePost; a `some []` field is the empty string,
which is falsy in the `||` fallbacks. -/
structure UpdateReq where
  title : Option Str
  description : Option Str
  image : Option ImageFile
  tags : RawTags
deriving DecidableEq, Repr

/-- `title || post.title`: keep the prior value when the supplied one
is absent or the empty string. -/
def jsOrStr (v : Option Str) (old : Str) : Str :=
  match v with
  | none => old
  | some s => if s = [] then old else s

/-- Replace the post with the given id in the collection. -/
def replacePost (st : Store) (p : PostRec) : Store :=
  { st with posts := st.posts.map (fun q => if q.pid = p.pid then p else q) }

/-- The tail of updatePost after the image branch: resolve tags, then
`findByIdAndUpdate` with the `||` fallbacks and the
`tagIds.length > 0 ? tagIds : post.tags` tag rule. -/
def updateFinish (env : ExtEnv) (st : Store) (post : PostRec) (r : UpdateReq)
    (url : Str) (evs : List Ev) : OpResult :=
  let (tagIds, st1) := resolveRawTags st r.tags
  let newPost : PostRec :=
    ⟨post.pid, jsOrStr r.title post.title, jsOrStr r.description post.description,
      url, if 0 < tagIds.length then tagIds else post.tags⟩
  if !env.persistOk then ⟨.serverError, st1, evs ++ [.persistUpdate post.pid]⟩
  else ⟨.updated newPost, replacePost st1 newPost, evs ++ [.persistUpdate post.pid]⟩

/-- updatePost (postsController.ts:472-564): look the post up; when a
new image is supplied validate it, upload it, and delete the old blob,
in that order, aborting on the first failure; then resolve tags and
update the record. -/
def updatePost (env : ExtEnv) (st : Store) (pid : Nat) (r : UpdateReq) : OpResult :=
  match findPostById st pid with
  | none => ⟨.notFound, st, []⟩
  | some post =>
    match r.image with
    | some img =>
      if !(jsStartsWith img.mimetype imageMarker) then ⟨.validationError, st, []⟩
      else if maxImageBytes < img.size then ⟨.validationError, st, []⟩
      else if !env.uploadOk then ⟨.serverError, st, [.upload]⟩
      else if !env.deleteOk then
        ⟨.serverError, st, [.upload, .blobDelete post.imageUrl]⟩
      else
        updateFinish env st post r env.uploadUrl
          [.upload, .blobDelete post.imageUrl]
    | none => updateFinish env st post r post.imageUrl []

/-- deletePost (postsController.ts:378-408): look the post up, delete
its blob, then delete the record; abort on the first failure. -/
def deletePost (env : ExtEnv) (st : Store) (pid : Nat) : OpResult :=
  match findPostById st pid with
  | none => ⟨.notFound, st, []⟩
  | some post =>
    if !env.deleteOk then ⟨.serverError, st, [.blobDelete post.imageUrl]⟩
    else if !env.persistOk then
      ⟨.serverError, st, [.blobDelete post.imageUrl, .persistDelete pid]⟩
    else
      ⟨.deleted,
        { st with posts := st.posts.filter (fun p => !(p.pid = pid)) },
        [.blobDelete post.imageUrl, .persistDelete pid]⟩

lemma isSlugChar_eq_true_iff (c : Char) :
    isSlugChar c = true ↔ ('a' ≤ c ∧ c ≤ 'z') ∨ ('0' ≤ c ∧ c ≤ '9') := by
  simp [isSlugChar]

lemma jsToLower_fix (c : Char) (h : isSlugChar c = true) : jsToLower c = c := by
  rw [isSlugChar_eq_true_iff] at h
  rw [jsToLower, if_neg]
  rintro ⟨g1, g2⟩
  have g2' : c.toNat ≤ ('Z').toNat := g2
  have g1' : ('A').toNat ≤ c.toNat := g1
  have e1 : ('Z').toNat = 90 := rfl
  have e2 : ('A').toNat = 65 := rfl
  rcases h with ⟨h1, h2⟩ | ⟨h1, h2⟩
  · have h1' : ('a').toNat ≤ c.toNat := h1
    have e3 : ('a').toNat = 97 := rfl
    omega
  · have h2' : c.toNat ≤ ('9').toNat := h2
    have e3 : ('9').toNat = 57 := rfl
    omega

lemma slugChar_eq (c : Char) :
    slugChar c = if isSlugChar (jsToLower c) then jsToLower c else '-' := rfl

lemma slugChar_cases (c : Char) :
    slugChar c = '-' ∨ isSlugChar (slugChar c) = true := by
  rw [slugChar_eq]
  by_cases h : isSlugChar (jsToLower c) = true
  · right; simp [h]
  · left; simp only [Bool.not_eq_true] at h; simp [h]

lemma slugChar_idem (c : Char) : slugChar (slugChar c) = slugChar c := by
  rcases slugChar_cases c with h | h
  · rw [h]; decide
  · rw [slugChar_eq, jsToLower_fix _ h, if_pos h]

/-- C9: every character of a slugify output is a lowercase letter, a
digit or a dash, and slugify is idempotent; being a Lean function it is
pure, total and deterministic. -/
theorem c9_slugify_shape_idem (s : Str) :
    (∀ c ∈ slugify s, ('a' ≤ c ∧ c ≤ 'z') ∨ ('0' ≤ c ∧ c ≤ '9') ∨ c = '-') ∧
    slugify (slugify s) = slugify s := by
  constructor
  · intro c hc
    rw [slugify, List.mem_map] at hc
    obtain ⟨a, _, rfl⟩ := hc
    rcases slugChar_cases a with h | h
    · right; right; exact h
    · rw [isSlugChar_eq_true_iff] at h
      rcases h with h | h
      · left; exact h
      · right; left; exact h
  · rw [slugify, slugify, List.map_map]
    apply List.map_congr_left
    intro a _
    exact slugChar_idem a

lemma findTagBySlug_append_left (l1 l2 : List TagRec) (s : Str) (t : TagRec)
    (h : findTagBySlug l1 s = some t) : findTagBySlug (l1 ++ l2) s = some t := by
  induction l1 with
  | nil => simp [findTagBySlug, List.find?] at h
  | cons a as ih =>
    by_cases ha : (a.slug == s) = true
    · simp only [findTagBySlug, List.cons_append, List.find?, ha] at h ⊢
      exact h
    · simp only [Bool.not_eq_true] at ha
      simp only [findTagBySlug, List.cons_append, List.find?, ha] at h ⊢
      exact ih h

lemma findTagBySlug_append_none (l1 l2 : List TagRec) (s : Str)
    (h : findTagBySlug l1 s = none) :
    findTagBySlug (l1 ++ l2) s = findTagBySlug l2 s := by
  induction l1 with
  | nil => simp
  | cons a as ih =>
    by_cases ha : (a.slug == s) = true
    · simp only [findTagBySlug, List.find?, ha] at h
      exact absurd h (by simp)
    · simp only [Bool.not_eq_true] at ha
      simp only [findTagBySlug, List.cons_append, List.find?, ha] at h ⊢
      exact ih h

lemma resolveOne_grows (st : Store) (name : Str) :
    ∃ suffix : List TagRec,
      (resolveOne st name).2.tags = st.tags ++ suffix ∧ suffix.length ≤ 1 ∧
      (resolveOne st name).2.posts = st.posts := by
  rw [resolveOne]
  cases h : findTagBySlug st.tags (slugify name) with
  | some t => exact ⟨[], by simp⟩
  | none => exact ⟨[⟨st.nextTagId, name, slugify name⟩], by simp⟩

lemma resolveTags_grows (names : List Str) (st : Store) :
    ∃ suffix : List TagRec,
      (resolveTags st names).2.tags = st.tags ++ suffix ∧
      (resolveTags st names).2.posts = st.posts := by
  induction names generalizing st with
  | nil => exact ⟨[], by simp [resolveTags]⟩
  | cons n rest ih =>
    obtain ⟨s1, h1, h1l, h1p⟩ := resolveOne_grows st n
    obtain ⟨s2, h2, h2p⟩ := ih (resolveOne st n).2
    refine ⟨s1 ++ s2, ?_, ?_⟩
    · rw [resolveTags]
      simp only
      rw [h2, h1, List.append_assoc]
    · rw [resolveTags]
      simp only
      rw [h2p, h1p]

lemma resolveOne_of_found (st : Store) (name : Str) (t : TagRec)
    (h : findTagBySlug st.tags (slugify name) = some t) :
    resolveOne st name = (t.tid, st) := by
  rw [resolveOne, h]

lemma resolveOne_of_none (st : Store) (name : Str)
    (h : findTagBySlug st.tags (slugify name) = none) :
    resolveOne st name =
      (st.nextTagId,
        { st with
            tags := st.tags ++ [⟨st.nextTagId, name, slugify name⟩],
            nextTagId := st.nextTagId + 1 }) := by
  rw [resolveOne, h]

lemma resolveOne_found (st : Store) (name : Str) :
    ∃ t : TagRec,
      findTagBySlug (resolveOne st name).2.tags (slugify name) = some t ∧
      t.tid = (resolveOne st name).1 := by
  cases h : findTagBySlug st.tags (slugify name) with
  | some t => rw [resolveOne_of_found st name t h]; exact ⟨t, h, rfl⟩
  | none =>
    rw [resolveOne_of_none st name h]
    refine ⟨⟨st.nextTagId, name, slugify name⟩, ?_, rfl⟩
    simp only
    rw [findTagBySlug_append_none _ _ _ h]
    simp [findTagBySlug, List.find?]

lemma findTagBySlug_stable (st : Store) (names : List Str) (s : Str) (t : TagRec)
    (h : findTagBySlug st.tags s = some t) :
    findTagBySlug (resolveTags st names).2.tags s = some t := by
  obtain ⟨suffix, hs, -⟩ := resolveTags_grows names st
  rw [hs]
  exact findTagBySlug_append_left _ _ _ _ h

lemma findTagBySlug_none_iff (l : List TagRec) (s : Str) :
    findTagBySlug l s = none ↔ ∀ t ∈ l, ¬(t.slug = s) := by
  simp [findTagBySlug, List.find?_eq_none]

lemma resolveOne_nodup (st : Store) (name : Str)
    (hd : (st.tags.map TagRec.slug).Nodup) :
    ((resolveOne st name).2.tags.map TagRec.slug).Nodup := by
  cases h : findTagBySlug st.tags (slugify name) with
  | some t => rw [resolveOne_of_found st name t h]; exact hd
  | none =>
    rw [resolveOne_of_none st name h]
    simp only [List.map_append, List.map_cons, List.map_nil]
    rw [List.nodup_append]
    refine ⟨hd, List.nodup_singleton _, ?_⟩
    rw [findTagBySlug_none_iff] at h
    intro x hx hx1
    simp only [List.mem_singleton] at hx1
    subst hx1
    rw [List.mem_map] at hx
    obtain ⟨u, hu, hus⟩ := hx
    exact h u hu hus

lemma resolveTags_nodup (names : List Str) (st : Store)
    (hd : (st.tags.map TagRec.slug).Nodup) :
    ((resolveTags st names).2.tags.map TagRec.slug).Nodup := by
  induction names generalizing st with
  | nil => exact hd
  | cons n rest ih =>
    rw [resolveTags]
    simp only
    exact ih _ (resolveOne_nodup st n hd)

lemma resolveTags_fst_length (names : List Str) (st : Store) :
    ((resolveTags st names).1).length = names.length := by
  induction names generalizing st with
  | nil => rfl
  | cons n rest ih =>
    rw [resolveTags]
    simp only [List.length_cons]
    rw [ih]

/-- C8: resolving the same tag name in a second pass, after any other
resolutions in between, yields the same tag identifier and creates no
further Tag record (the first pass creates at most one), and slug
uniqueness of the tag collection is preserved. -/
theorem c8_resolve_idempotent (st : Store) (name : Str) (others : List Str)
    (hd : (st.tags.map TagRec.slug).Nodup) :
    (resolveOne ((resolveTags (resolveOne st name).2 others).2) name).1 =
      (resolveOne st name).1 ∧
    (resolveOne ((resolveTags (resolveOne st name).2 others).2) name).2 =
      (resolveTags (resolveOne st name).2 others).2 ∧
    (resolveOne st name).2.tags.length ≤ st.tags.length + 1 ∧
    ((resolveOne ((resolveTags (resolveOne st name).2 others).2) name).2.tags.map
      TagRec.slug).Nodup := by
  obtain ⟨t, hfind, htid⟩ := resolveOne_found st name
  have hstable :=
    findTagBySlug_stable (resolveOne st name).2 others (slugify name) t hfind
  have h2 := resolveOne_of_found _ name t hstable
  refine ⟨?_, ?_, ?_, ?_⟩
  · rw [h2]; exact htid
  · rw [h2]
  · obtain ⟨suf, hs, hl, -⟩ := resolveOne_grows st name
    rw [hs, List.length_append]
    omega
  · rw [h2]
    exact resolveTags_nodup others _ (resolveOne_nodup st name hd)

theorem c8_resolve_idempotent_witness :
    ((((⟨[], [], 0, 0⟩ : Store)).tags.map TagRec.slug).Nodup) ∧
    (resolveOne ((resolveTags
        (resolveOne (⟨[], [], 0, 0⟩ : Store) ("JS".toList)).2
        [("Web Dev".toList)]).2) ("JS".toList)).1 =
      (resolveOne (⟨[], [], 0, 0⟩ : Store) ("JS".toList)).1 :=
  ⟨by decide,
    (c8_resolve_idempotent (⟨[], [], 0, 0⟩ : Store) ("JS".toList)
      [("Web Dev".toList)] (by decide)).1⟩

/-- C3 counterexample: a negative page parameter is truthy after
parseInt, so getPosts keeps it instead of falling back to the default,
and the computed skip is negative. -/
theorem c3_counterexample :
    listPage (some ("-3".toList)) = -3 ∧
    ¬(0 < listPage (some ("-3".toList))) ∧
    listSkip (some ("-3".toList)) (some ("10".toList)) = -40 := by decide

/-- C3 amended: in getPosts an absent, non-numeric or zero page/limit
falls back to its default independently per field while any nonzero
parsed value (negative included) is kept; in searchPosts the defaults
apply only to an absent parameter, and a present non-numeric value
parses to NaN instead of the default. -/
theorem c3_amended :
    (∀ raw : Option Str,
      raw.bind jsParseInt = none ∨ raw.bind jsParseInt = some 0 →
      listPage raw = 1 ∧ listLimit raw = 10) ∧
    (∀ (raw : Option Str) (n : Int), raw.bind jsParseInt = some n → n ≠ 0 →
      listPage raw = n ∧ listLimit raw = n) ∧
    (searchPageNum none = some 1 ∧ searchLimitNum none = some 10) ∧
    (∀ s : Str, searchPageNum (some s) = jsParseInt s ∧
      searchLimitNum (some s) = jsParseInt s) := by
  refine ⟨?_, ?_, ⟨by decide, by decide⟩, fun s => ⟨rfl, rfl⟩⟩
  · intro raw h
    rcases h with h | h <;>
      simp [listPage, listLimit, jsParseOrDefault, h]
  · intro raw n h hn
    simp [listPage, listLimit, jsParseOrDefault, h, hn]

theorem c3_amended_witness :
    ((some ("abc".toList) : Option Str).bind jsParseInt = none ∨
      (some ("abc".toList) : Option Str).bind jsParseInt = some 0) ∧
    (listPage (some ("abc".toList)) = 1 ∧ listLimit (some ("abc".toList)) = 10) :=
  ⟨Or.inl (by decide), c3_amended.1 (some ("abc".toList)) (Or.inl (by decide))⟩

/-- C7: with a non-empty tags parameter none of whose slugs is the slug
of any stored tag, the built filter matches no post and the listing is
empty with total 0 (the embedding raises no error on this path). -/
theorem c7_unmatched_tags_empty (sortFn : List PostRec → List PostRec)
    (hperm : ∀ l, (sortFn l).Perm l)
    (st : Store) (pageRaw limitRaw : Option Str) (s : Str) (hs : s ≠ [])
    (hmiss : ∀ t ∈ st.tags, t.slug ∉ (splitComma s).map jsTrim) :
    (∀ p, getPostsFilter st (some s) p = false) ∧
    (getPosts sortFn st pageRaw limitRaw (some s)).1 = [] ∧
    (getPosts sortFn st pageRaw limitRaw (some s)).2.total = 0 := by
  have hfil : st.tags.filter
      (fun t => ((splitComma s).map jsTrim).contains t.slug) = [] := by
    rw [List.filter_eq_nil_iff]
    intro t ht hc
    rw [List.elem_iff] at hc
    exact hmiss t ht hc
  have hpred : ∀ p, getPostsFilter st (some s) p = false := by
    intro p
    simp only [getPostsFilter]
    rw [if_neg hs, hfil]
    simp
  have hmatched : st.posts.filter (getPostsFilter st (some s)) = [] := by
    rw [List.filter_eq_nil_iff]
    intro p _
    simp [hpred p]
  have hsort : sortFn [] = [] := (hperm []).eq_nil
  refine ⟨hpred, ?_, ?_⟩
  · simp [getPosts, hmatched, hsort]
  · simp [getPosts, hmatched]

theorem c7_unmatched_tags_empty_witness :
    (("nonexistent-slug".toList : Str) ≠ []) ∧
    (getPosts id
      (⟨[⟨1, ("t").toList, ("d").toList, ("u").toList, [1]⟩],
        [⟨1, ("x").toList, ("x").toList⟩], 2, 2⟩ : Store)
      none none (some ("nonexistent-slug".toList))).1 = [] :=
  ⟨by decide,
    (c7_unmatched_tags_empty id (fun l => List.Perm.refl l)
      (⟨[⟨1, ("t").toList, ("d").toList, ("u").toList, [1]⟩],
        [⟨1, ("x").toList, ("x").toList⟩], 2, 2⟩ : Store)
      none none ("nonexistent-slug".toList) (by decide) (by decide)).2.1⟩

lemma reLiteral_cons (pc : Char) (ps : Str) (hp : reLiteral (pc :: ps) = true) :
    isReMeta pc = false ∧ reLiteral ps = true := by
  simp only [reLiteral, List.all_cons, Bool.and_eq_true, Bool.not_eq_true'] at hp
  exact ⟨hp.1, hp.2⟩

lemma reMatchHere_eq_ciPrefixAt (p : Str) (hp : reLiteral p = true) (t : Str) :
    reMatchHere p t = ciPrefixAt p t := by
  induction p generalizing t with
  | nil => cases t <;> rfl
  | cons pc ps ih =>
    obtain ⟨h1, h2⟩ := reLiteral_cons pc ps hp
    cases t with
    | nil => rfl
    | cons c cs =>
      have hdot : ¬ pc = '.' := by
        intro h
        subst h
        exact absurd h1 (by decide)
      rw [reMatchHere, ciPrefixAt, reCharMatch, if_neg hdot, ih h2]

lemma reSearch_eq_containsCI (p : Str) (hp : reLiteral p = true) (t : Str) :
    reSearch p t = containsCI p t := by
  induction t with
  | nil => rw [reSearch, containsCI, reMatchHere_eq_ciPrefixAt p hp]
  | cons c cs ih =>
    rw [reSearch, containsCI, reMatchHere_eq_ciPrefixAt p hp, ih]

/-- C4 counterexample: the query is fed to the store as a regex, so the
one-character query consisting of a dot matches a post although neither
its title nor its description contains a dot as a substring. -/
theorem c4_counterexample :
    searchPosts
      (⟨[⟨1, ("abc").toList, ("xyz").toList, ("u").toList, []⟩], [], 0, 2⟩ : Store)
      (some (".".toList)) none none =
      SearchRes.results
        (some [⟨1, ("abc").toList, ("xyz").toList, ("u").toList, []⟩])
        (some 1) (some 10) 1 ∧
    containsCI (".".toList) (("abc").toList) = false ∧
    containsCI (".".toList) (("xyz").toList) = false := by decide

/-- C4 amended: missing-query validation is exact, and for queries free
of regex metacharacters the filter coincides with case-insensitive
substring search over title OR description. -/
theorem c4_amended :
    (∀ (st : Store) (qRaw pageRaw limitRaw : Option Str),
      searchPosts st qRaw pageRaw limitRaw = SearchRes.missingQuery ↔
        qRaw = none ∨ qRaw = some []) ∧
    (∀ (q : Str) (p : PostRec), reLiteral q = true →
      searchFilter q p =
        (containsCI q p.title || containsCI q p.description)) := by
  constructor
  · intro st qRaw pageRaw limitRaw
    constructor
    · intro h
      cases qRaw with
      | none => exact Or.inl rfl
      | some q =>
        by_cases hq : q = []
        · exact Or.inr (by rw [hq])
        · simp only [searchPosts] at h
          rw [if_neg hq] at h
          exact absurd h (by simp)
    · rintro (rfl | rfl)
      · rfl
      · simp [searchPosts]
  · intro q p hq
    rw [searchFilter, reSearch_eq_containsCI q hq, reSearch_eq_containsCI q hq]

theorem c4_amended_witness :
    searchPosts (⟨[], [], 0, 0⟩ : Store) none none none =
      SearchRes.missingQuery ∧
    reLiteral ("desc".toList) = true ∧
    searchFilter ("desc".toList)
        ⟨1, ("Title").toList, ("my Description here").toList, ("u").toList, []⟩ =
      (containsCI ("desc".toList) (("Title").toList) ||
        containsCI ("desc".toList) (("my Description here").toList)) :=
  ⟨(c4_amended.1 (⟨[], [], 0, 0⟩ : Store) none none none).mpr (Or.inl rfl),
    by decide,
    c4_amended.2 ("desc".toList)
      ⟨1, ("Title").toList, ("my Description here").toList, ("u").toList, []⟩
      (by decide)⟩

/-- C5: every validation of createPost happens before the upload (an
invalid request yields a ValidationError with an empty call trace), the
record-persistence attempt happens only after a successful upload and
strictly after it in the trace, and the post collection changes only
when both upload and persistence succeeded. -/
theorem c5_create_order (env : ExtEnv) (st : Store) (r : CreateReq) :
    ((truthyStr r.title = true ∧ truthyStr r.description = true ∧
      ∃ img, r.image = some img ∧ jsStartsWith img.mimetype imageMarker = true ∧
        img.size ≤ maxImageBytes) ∨
      ((createPost env st r).res = Outcome.validationError ∧
        (createPost env st r).events = [])) ∧
    (Ev.persistCreate ∈ (createPost env st r).events →
      env.uploadOk = true ∧
      (createPost env st r).events = [Ev.upload, Ev.persistCreate]) ∧
    ((createPost env st r).st.posts ≠ st.posts →
      env.uploadOk = true ∧ env.persistOk = true) := by
  cases ht : truthyStr r.title with
  | false =>
    have hc : createPost env st r = ⟨Outcome.validationError, st, []⟩ := by
      rw [createPost]; simp [ht]
    rw [hc]
    exact ⟨Or.inr ⟨rfl, rfl⟩, by simp, by simp⟩
  | true =>
  cases hd : truthyStr r.description with
  | false =>
    have hc : createPost env st r = ⟨Outcome.validationError, st, []⟩ := by
      rw [createPost]; simp [hd]
    rw [hc]
    exact ⟨Or.inr ⟨rfl, rfl⟩, by simp, by simp⟩
  | true =>
  cases himg : r.image with
  | none =>
    have hc : createPost env st r = ⟨Outcome.validationError, st, []⟩ := by
      rw [createPost]; simp [ht, hd, himg]
    rw [hc]
    exact ⟨Or.inr ⟨rfl, rfl⟩, by simp, by simp⟩
  | some img =>
  cases hm : jsStartsWith img.mimetype imageMarker with
  | false =>
    have hc : createPost env st r = ⟨Outcome.validationError, st, []⟩ := by
      rw [createPost]; simp [ht, hd, himg, hm]
    rw [hc]
    exact ⟨Or.inr ⟨rfl, rfl⟩, by simp, by simp⟩
  | true =>
  by_cases hsz : maxImageBytes < img.size
  · have hc : createPost env st r = ⟨Outcome.validationError, st, []⟩ := by
      rw [createPost]; simp [ht, hd, himg, hm, hsz]
    rw [hc]
    exact ⟨Or.inr ⟨rfl, rfl⟩, by simp, by simp⟩
  · have hvalid : (true = true) ∧ (true = true) ∧
        ∃ i, some img = some i ∧ jsStartsWith i.mimetype imageMarker = true ∧
          i.size ≤ maxImageBytes :=
      ⟨rfl, rfl, img, rfl, hm, Nat.le_of_not_lt hsz⟩
    cases hu : env.uploadOk with
    | false =>
      have hc : createPost env st r = ⟨Outcome.serverError, st, [Ev.upload]⟩ := by
        rw [createPost]; simp [ht, hd, himg, hm, hsz, hu]
      rw [hc]
      exact ⟨Or.inl hvalid, by simp, by simp⟩
    | true =>
      obtain ⟨suf, -, hposts⟩ := resolveTags_grows (tagNamesOf r.tags) st
      cases hp : env.persistOk with
      | false =>
        have hc : createPost env st r =
            ⟨Outcome.serverError, (resolveRawTags st r.tags).2,
              [Ev.upload, Ev.persistCreate]⟩ := by
          rw [createPost]; simp [ht, hd, himg, hm, hsz, hu, hp, resolveRawTags]
        rw [hc]
        refine ⟨Or.inl hvalid, fun _ => ⟨rfl, rfl⟩, fun h => absurd ?_ h⟩
        exact hposts
      | true =>
        have hc : (createPost env st r).events = [Ev.upload, Ev.persistCreate] := by
          rw [createPost]; simp [ht, hd, himg, hm, hsz, hu, hp]
        exact ⟨Or.inl hvalid, fun _ => ⟨rfl, hc⟩, fun _ => ⟨rfl, rfl⟩⟩

theorem c5_create_order_witness :
    Ev.persistCreate ∈
      (createPost ⟨true, ("url").toList, true, true⟩ (⟨[], [], 0, 0⟩ : Store)
        ⟨some (("T").toList), some (("D").toList),
          some ⟨("image/png").toList, 100⟩, RawTags.absent⟩).events ∧
    (createPost ⟨true, ("url").toList, true, true⟩ (⟨[], [], 0, 0⟩ : Store)
        ⟨some (("T").toList), some (("D").toList),
          some ⟨("image/png").toList, 100⟩, RawTags.absent⟩).events =
      [Ev.upload, Ev.persistCreate] :=
  ⟨by decide,
    ((c5_create_order ⟨true, ("url").toList, true, true⟩ (⟨[], [], 0, 0⟩ : Store)
      ⟨some (("T").toList), some (("D").toList),
        some ⟨("image/png").toList, 100⟩, RawTags.absent⟩).2.1 (by decide)).2⟩

/-- C6: deleting a nonexistent id fails with NotFoundError and makes no
blob-store call; for an existing post the blob deletion is attempted
first, a failed blob deletion fails the whole operation with the store
unchanged, and the record deletion is attempted only after a successful
blob deletion. -/
theorem c6_delete_order (env : ExtEnv) (st : Store) (pid : Nat) :
    (findPostById st pid = none →
      (deletePost env st pid).res = Outcome.notFound ∧
      (deletePost env st pid).events = []) ∧
    (∀ post, findPostById st pid = some post →
      ((deletePost env st pid).events.head? =
        some (Ev.blobDelete post.imageUrl)) ∧
      (env.deleteOk = false →
        (deletePost env st pid).res = Outcome.serverError ∧
        (deletePost env st pid).st = st) ∧
      (Ev.persistDelete pid ∈ (deletePost env st pid).events →
        env.deleteOk = true)) := by
  constructor
  · intro h
    rw [deletePost, h]
    exact ⟨rfl, rfl⟩
  · intro post h
    rw [deletePost, h]
    cases hdel : env.deleteOk with
    | false => simp
    | true =>
      cases hp : env.persistOk with
      | false => simp
      | true => simp

theorem c6_delete_order_witness :
    findPostById (⟨[], [], 0, 0⟩ : Store) 7 = none ∧
    (deletePost ⟨true, ("url").toList, true, true⟩ (⟨[], [], 0, 0⟩ : Store) 7).res =
      Outcome.notFound ∧
    (deletePost ⟨true, ("url").toList, true, true⟩ (⟨[], [], 0, 0⟩ : Store) 7).events =
      [] :=
  ⟨by decide,
    (c6_delete_order ⟨true, ("url").toList, true, true⟩ (⟨[], [], 0, 0⟩ : Store) 7).1
      (by decide)⟩

lemma findPostById_posts (st st2 : Store) (hpp : st2.posts = st.posts) (pid : Nat) :
    findPostById st2 pid = findPostById st pid := by
  rw [findPostById, findPostById, hpp]

lemma find_replace_posts (ps : List PostRec) (newP : PostRec) (pid : Nat)
    (oldP : PostRec) (hf : ps.find? (fun q => q.pid == pid) = some oldP)
    (hpid : newP.pid = pid) :
    (ps.map (fun q => if q.pid = newP.pid then newP else q)).find?
      (fun q => q.pid == pid) = some newP := by
  induction ps with
  | nil => simp [List.find?] at hf
  | cons a as ih =>
    by_cases ha : a.pid = pid
    · have hcond : a.pid = newP.pid := by rw [ha, hpid]
      simp only [List.map_cons, if_pos hcond, List.find?]
      have : (newP.pid == pid) = true := by simp [hpid]
      rw [this]
    · have hcond : ¬ a.pid = newP.pid := by rw [hpid]; exact ha
      have ha' : (a.pid == pid) = false := by simp [ha]
      simp only [List.find?, ha'] at hf
      simp only [List.map_cons, if_neg hcond, List.find?, ha']
      exact ih hf

lemma updateFinish_shape (env : ExtEnv) (st : Store) (post : PostRec)
    (r : UpdateReq) (url : Str) (evs : List Ev) :
    (env.persistOk = false ∧
      updateFinish env st post r url evs =
        ⟨Outcome.serverError, (resolveRawTags st r.tags).2,
          evs ++ [Ev.persistUpdate post.pid]⟩) ∨
    (env.persistOk = true ∧
      updateFinish env st post r url evs =
        ⟨Outcome.updated
            ⟨post.pid, jsOrStr r.title post.title,
              jsOrStr r.description post.description, url,
              if 0 < (resolveRawTags st r.tags).1.length
              then (resolveRawTags st r.tags).1 else post.tags⟩,
          replacePost (resolveRawTags st r.tags).2
            ⟨post.pid, jsOrStr r.title post.title,
              jsOrStr r.description post.description, url,
              if 0 < (resolveRawTags st r.tags).1.length
              then (resolveRawTags st r.tags).1 else post.tags⟩,
          evs ++ [Ev.persistUpdate post.pid]⟩) := by
  cases hp : env.persistOk with
  | false =>
    left
    refine ⟨rfl, ?_⟩
    rw [updateFinish]
    simp [hp]
  | true =>
    right
    refine ⟨rfl, ?_⟩
    rw [updateFinish]
    simp [hp]

lemma updatePost_shape (env : ExtEnv) (st : Store) (pid : Nat) (r : UpdateReq)
    (post : PostRec) (hp : findPostById st pid = some post) :
    (updatePost env st pid r = ⟨Outcome.validationError, st, []⟩) ∨
    (updatePost env st pid r = ⟨Outcome.serverError, st, [Ev.upload]⟩) ∨
    (updatePost env st pid r =
      ⟨Outcome.serverError, st, [Ev.upload, Ev.blobDelete post.imageUrl]⟩) ∨
    (∃ url evs, updatePost env st pid r = updateFinish env st post r url evs) := by
  rw [updatePost, hp]
  cases himg : r.image with
  | none => exact Or.inr (Or.inr (Or.inr ⟨post.imageUrl, [], rfl⟩))
  | some img =>
    by_cases hm : jsStartsWith img.mimetype imageMarker = true
    · by_cases hsz : maxImageBytes < img.size
      · left
        simp [hm, hsz]
      · cases hu : env.uploadOk with
        | false =>
          right; left
          simp [hm, hsz, hu]
        | true =>
          cases hdel : env.deleteOk with
          | false =>
            right; right; left
            simp [hm, hsz, hu, hdel]
          | true =>
            refine Or.inr (Or.inr (Or.inr
              ⟨env.uploadUrl, [Ev.upload, Ev.blobDelete post.imageUrl], ?_⟩))
            simp [hm, hsz, hu, hdel]
    · left
      simp [hm]

lemma findPostById_pid (st : Store) (pid : Nat) (post : PostRec)
    (hp : findPostById st pid = some post) : post.pid = pid := by
  rw [findPostById] at hp
  have := List.find?_some hp
  simpa using this

lemma resolveRawTags_posts (st : Store) (r : RawTags) :
    (resolveRawTags st r).2.posts = st.posts := by
  obtain ⟨suf, -, hpp⟩ := resolveTags_grows (tagNamesOf r) st
  exact hpp

lemma findPostById_replacePost (st1 : Store) (newP : PostRec) (pid : Nat)
    (oldP : PostRec) (hf : findPostById st1 pid = some oldP)
    (hpid : newP.pid = pid) :
    findPostById (replacePost st1 newP) pid = some newP := by
  rw [findPostById] at hf ⊢
  rw [replacePost]
  exact find_replace_posts st1.posts newP pid oldP hf hpid

lemma c1_unchanged (st : Store) (pid : Nat) (post : PostRec)
    (hp : findPostById st pid = some post) (out : OpResult) (res0 : Outcome)
    (evs0 : List Ev) (hout : out = ⟨res0, st, evs0⟩)
    (hnres : ∀ p2, ¬ res0 = Outcome.updated p2) :
    (∀ q, findPostById out.st pid = some q → q.tags = post.tags) ∧
    (∀ p2, out.res = Outcome.updated p2 → False) := by
  subst hout
  constructor
  · intro q hq
    simp only at hq
    rw [hp] at hq
    cases hq
    rfl
  · intro p2 h
    exact hnres p2 h

/-- C1: on update, a tags field resolving to no names leaves the stored
tag list unchanged (on every outcome); a tags field resolving to a
non-empty name sequence replaces the tag list wholesale with the
resolved ids on a successful update; and no update can turn a non-empty
tag list into an empty one. -/
theorem c1_update_tag_replacement (env : ExtEnv) (st : Store) (pid : Nat)
    (r : UpdateReq) (post : PostRec) (hp : findPostById st pid = some post) :
    (tagNamesOf r.tags = [] →
      ∀ q, findPostById (updatePost env st pid r).st pid = some q →
        q.tags = post.tags) ∧
    (∀ p2, (updatePost env st pid r).res = Outcome.updated p2 →
      (tagNamesOf r.tags = [] → p2.tags = post.tags) ∧
      (tagNamesOf r.tags ≠ [] →
        p2.tags = (resolveRawTags st r.tags).1 ∧
        (resolveRawTags st r.tags).1 ≠ [] ∧
        findPostById (updatePost env st pid r).st pid = some p2)) ∧
    (post.tags ≠ [] →
      ∀ q, findPostById (updatePost env st pid r).st pid = some q →
        q.tags ≠ []) := by
  have hpid : post.pid = pid := findPostById_pid st pid post hp
  have hlen : (resolveRawTags st r.tags).1.length = (tagNamesOf r.tags).length :=
    resolveTags_fst_length _ _
  have hposts : (resolveRawTags st r.tags).2.posts = st.posts :=
    resolveRawTags_posts st r.tags
  rcases updatePost_shape env st pid r post hp with hsh | hsh | hsh | ⟨url, evs, hsh⟩
  · obtain ⟨hA, hB⟩ := c1_unchanged st pid post hp _ _ _ hsh
      (fun p2 h => Outcome.noConfusion h)
    exact ⟨fun _ => hA, fun p2 hres => (hB p2 hres).elim,
      fun hne q hq => by rw [hA q hq]; exact hne⟩
  · obtain ⟨hA, hB⟩ := c1_unchanged st pid post hp _ _ _ hsh
      (fun p2 h => Outcome.noConfusion h)
    exact ⟨fun _ => hA, fun p2 hres => (hB p2 hres).elim,
      fun hne q hq => by rw [hA q hq]; exact hne⟩
  · obtain ⟨hA, hB⟩ := c1_unchanged st pid post hp _ _ _ hsh
      (fun p2 h => Outcome.noConfusion h)
    exact ⟨fun _ => hA, fun p2 hres => (hB p2 hres).elim,
      fun hne q hq => by rw [hA q hq]; exact hne⟩
  · rcases updateFinish_shape env st post r url evs with ⟨-, heq⟩ | ⟨-, heq⟩
    · rw [heq] at hsh
      have hfind : findPostById (updatePost env st pid r).st pid = some post := by
        rw [hsh]
        rw [findPostById_posts st _ hposts]
        exact hp
      refine ⟨?_, ?_, ?_⟩
      · intro _ q hq
        rw [hfind] at hq
        cases hq
        rfl
      · intro p2 hres
        rw [hsh] at hres
        exact Outcome.noConfusion hres
      · intro hne q hq
        rw [hfind] at hq
        cases hq
        exact hne
    · rw [heq] at hsh
      have hfind1 : findPostById (resolveRawTags st r.tags).2 pid = some post := by
        rw [findPostById_posts st _ hposts]
        exact hp
      have hnew :
          findPostById (updatePost env st pid r).st pid =
            some ⟨post.pid, jsOrStr r.title post.title,
              jsOrStr r.description post.description, url,
              if 0 < (resolveRawTags st r.tags).1.length
              then (resolveRawTags st r.tags).1 else post.tags⟩ := by
        rw [hsh]
        exact findPostById_replacePost _ _ pid post hfind1 hpid
      have hres2 : (updatePost env st pid r).res =
          Outcome.updated ⟨post.pid, jsOrStr r.title post.title,
            jsOrStr r.description post.description, url,
            if 0 < (resolveRawTags st r.tags).1.length
            then (resolveRawTags st r.tags).1 else post.tags⟩ := by
        rw [hsh]
      refine ⟨?_, ?_, ?_⟩
      · intro hnil q hq
        rw [hnew] at hq
        cases hq
        simp only
        rw [if_neg]
        rw [hlen, hnil]
        simp
      · intro p2 hres
        rw [hres2] at hres
        cases hres
        constructor
        · intro hnil
          simp only
          rw [if_neg]
          rw [hlen, hnil]
          simp
        · intro hne
          have hpos : 0 < (resolveRawTags st r.tags).1.length := by
            rw [hlen]
            exact List.length_pos.mpr hne
          refine ⟨by simp only; rw [if_pos hpos], ?_, ?_⟩
          · intro hcon
            rw [hcon] at hpos
            simp at hpos
          · rw [hnew]
      · intro hne q hq
        rw [hnew] at hq
        cases hq
        simp only
        by_cases hpos : 0 < (resolveRawTags st r.tags).1.length
        · rw [if_pos hpos]
          intro hcon
          rw [hcon] at hpos
          simp at hpos
        · rw [if_neg hpos]
          exact hne

theorem c1_update_tag_replacement_witness :
    findPostById
        (⟨[⟨1, ("t").toList, ("d").toList, ("u").toList, [5]⟩], [], 9, 2⟩ : Store) 1 =
      some ⟨1, ("t").toList, ("d").toList, ("u").toList, [5]⟩ ∧
    tagNamesOf (RawTags.str ("JS".toList)) ≠ [] ∧
    (⟨1, ("t").toList, ("d").toList, ("u").toList, [9]⟩ : PostRec).tags =
      (resolveRawTags
        (⟨[⟨1, ("t").toList, ("d").toList, ("u").toList, [5]⟩], [], 9, 2⟩ : Store)
        (RawTags.str ("JS".toList))).1 :=
  ⟨by decide, by decide,
    ((c1_update_tag_replacement ⟨true, ("u2").toList, true, true⟩
        (⟨[⟨1, ("t").toList, ("d").toList, ("u").toList, [5]⟩], [], 9, 2⟩ : Store) 1
        ⟨none, none, none, RawTags.str ("JS".toList)⟩
        ⟨1, ("t").toList, ("d").toList, ("u").toList, [5]⟩ (by decide)).2.1
      ⟨1, ("t").toList, ("d").toList, ("u").toList, [9]⟩ (by decide)).2
      (by decide) |>.1⟩

/-- C2 counterexample: with a valid new image, a successful upload and a
failing old-blob deletion, the operation fails and the record update is
never applied — the stored post keeps its old title and old imageUrl,
contradicting the claim that the record still ends up updated. -/
theorem c2_counterexample :
    updatePost ⟨true, ("new-url").toList, false, true⟩
        (⟨[⟨1, ("t").toList, ("d").toList, ("old-url").toList, []⟩], [], 0, 2⟩ : Store)
        1
        ⟨some (("t2").toList), none, some ⟨("image/png").toList, 100⟩,
          RawTags.absent⟩ =
      ⟨Outcome.serverError,
        ⟨[⟨1, ("t").toList, ("d").toList, ("old-url").toList, []⟩], [], 0, 2⟩,
        [Ev.upload, Ev.blobDelete (("old-url").toList)]⟩ := by decide

lemma updateFinish_events (env : ExtEnv) (st : Store) (post : PostRec)
    (r : UpdateReq) (url : Str) (evs : List Ev) :
    (updateFinish env st post r url evs).events =
      evs ++ [Ev.persistUpdate post.pid] := by
  rw [updateFinish]
  cases hper : env.persistOk <;> simp [hper]

/-- C2 amended: when a valid new image is supplied, the old blob is
deleted only after a successful upload (and right after it in the
trace), the record update is attempted only after a successful old-blob
deletion, and a failed old-blob deletion fails the operation with the
record never updated (the store is unchanged; the new blob is left
orphaned). -/
theorem c2_amended (env : ExtEnv) (st : Store) (pid : Nat) (r : UpdateReq)
    (post : PostRec) (img : ImageFile) (hp : findPostById st pid = some post)
    (hi : r.image = some img)
    (hm : jsStartsWith img.mimetype imageMarker = true)
    (hsz : img.size ≤ maxImageBytes) :
    (∀ url, Ev.blobDelete url ∈ (updatePost env st pid r).events →
      env.uploadOk = true ∧ url = post.imageUrl ∧
      (updatePost env st pid r).events.take 2 =
        [Ev.upload, Ev.blobDelete post.imageUrl]) ∧
    (Ev.persistUpdate pid ∈ (updatePost env st pid r).events →
      env.deleteOk = true) ∧
    (env.uploadOk = true → env.deleteOk = false →
      (updatePost env st pid r).res = Outcome.serverError ∧
      (updatePost env st pid r).st = st) := by
  have hsz' : ¬ maxImageBytes < img.size := Nat.not_lt.mpr hsz
  rw [updatePost, hp, hi]
  cases hu : env.uploadOk with
  | false =>
    simp [hm, hsz', hu]
  | true =>
    cases hdel : env.deleteOk with
    | false =>
      simp [hm, hsz', hu, hdel]
    | true =>
      have hpid : post.pid = pid := findPostById_pid st pid post hp
      simp only [hm, hsz', hu, hdel, if_neg, if_pos, Bool.not_true,
        Bool.false_eq_true, if_false, ite_false, ite_true]
      refine ⟨?_, ?_, ?_⟩
      · intro url hmem
        rw [updateFinish_events] at hmem
        simp at hmem
        exact ⟨trivial, hmem, by rw [updateFinish_events]; simp⟩
      · intro _
        trivial
      · intro _ hcon
        exact absurd hcon (by simp)

theorem c2_amended_witness :
    findPostById
        (⟨[⟨1, ("t").toList, ("d").toList, ("old-url").toList, []⟩], [], 0, 2⟩ : Store)
        1 = some ⟨1, ("t").toList, ("d").toList, ("old-url").toList, []⟩ ∧
    (updatePost ⟨true, ("new-url").toList, false, true⟩
        (⟨[⟨1, ("t").toList, ("d").toList, ("old-url").toList, []⟩], [], 0, 2⟩ : Store)
        1
        ⟨none, none, some ⟨("image/png").toList, 100⟩, RawTags.absent⟩).res =
      Outcome.serverError ∧
    (updatePost ⟨true, ("new-url").toList, false, true⟩
        (⟨[⟨1, ("t").toList, ("d").toList, ("old-url").toList, []⟩], [], 0, 2⟩ : Store)
        1
        ⟨none, none, some ⟨("image/png").toList, 100⟩, RawTags.absent⟩).st =
      (⟨[⟨1, ("t").toList, ("d").toList, ("old-url").toList, []⟩], [], 0, 2⟩ : Store) :=
  ⟨by decide,
    (c2_amended ⟨true, ("new-url").toList, false, true⟩
      (⟨[⟨1, ("t").toList, ("d").toList, ("old-url").toList, []⟩], [], 0, 2⟩ : Store)
      1 ⟨none, none, some ⟨("image/png").toList, 100⟩, RawTags.absent⟩
      ⟨1, ("t").toList, ("d").toList, ("old-url").toList, []⟩
      ⟨("image/png").toList, 100⟩ (by decide) rfl (by decide) (by decide)).2.2
      rfl rfl⟩

lemma updatePost_congr (env : ExtEnv) (st : Store) (pid : Nat)
    (r r2 : UpdateReq) (himg : r.image = r2.image) (htags : r.tags = r2.tags)
    (ht : ∀ old, jsOrStr r.title old = jsOrStr r2.title old)
    (hd : ∀ old, jsOrStr r.description old = jsOrStr r2.description old) :
    updatePost env st pid r = updatePost env st pid r2 := by
  have hfin : ∀ p0 url evs,
      updateFinish env st p0 r url evs = updateFinish env st p0 r2 url evs := by
    intro p0 url evs
    rw [updateFinish, updateFinish, resolveRawTags, resolveRawTags, htags,
      ht p0.title, hd p0.description]
  rw [updatePost, updatePost, himg]
  cases hfp : findPostById st pid with
  | none => rfl
  | some p0 =>
    simp only [hfin]

/-- C10: supplying the empty string for title or description in an
update behaves exactly like omitting the field — the whole operation is
identical to the one with the field absent, and on a successful update
the stored title/description is the prior one. -/
theorem c10_empty_like_omitted (env : ExtEnv) (st : Store) (pid : Nat)
    (r : UpdateReq) (post : PostRec) (hp : findPostById st pid = some post) :
    (updatePost env st pid { r with title := some [] } =
      updatePost env st pid { r with title := none }) ∧
    (updatePost env st pid { r with description := some [] } =
      updatePost env st pid { r with description := none }) ∧
    (∀ p2, (updatePost env st pid r).res = Outcome.updated p2 →
      ((r.title = none ∨ r.title = some []) → p2.title = post.title) ∧
      ((r.description = none ∨ r.description = some []) →
        p2.description = post.description)) := by
  refine ⟨?_, ?_, ?_⟩
  · exact updatePost_congr env st pid _ _ rfl rfl
      (fun old => by simp [jsOrStr]) (fun old => rfl)
  · exact updatePost_congr env st pid _ _ rfl rfl
      (fun old => rfl) (fun old => by simp [jsOrStr])
  · intro p2 hres
    rcases updatePost_shape env st pid r post hp with hsh | hsh | hsh | ⟨url, evs, hsh⟩
    · rw [hsh] at hres
      exact Outcome.noConfusion hres
    · rw [hsh] at hres
      exact Outcome.noConfusion hres
    · rw [hsh] at hres
      exact Outcome.noConfusion hres
    · rcases updateFinish_shape env st post r url evs with ⟨-, heq⟩ | ⟨-, heq⟩
      · rw [heq] at hsh
        rw [hsh] at hres
        exact Outcome.noConfusion hres
      · rw [heq] at hsh
        rw [hsh] at hres
        cases hres
        constructor
        · rintro (hte | hte) <;> simp [jsOrStr, hte]
        · rintro (hde | hde) <;> simp [jsOrStr, hde]

theorem c10_empty_like_omitted_witness :
    findPostById
        (⟨[⟨1, ("t").toList, ("d").toList, ("u").toList, []⟩], [], 0, 2⟩ : Store) 1 =
      some ⟨1, ("t").toList, ("d").toList, ("u").toList, []⟩ ∧
    updatePost ⟨true, ("u2").toList, true, true⟩
        (⟨[⟨1, ("t").toList, ("d").toList, ("u").toList, []⟩], [], 0, 2⟩ : Store) 1
        { (⟨none, none, none, RawTags.absent⟩ : UpdateReq) with title := some [] } =
      updatePost ⟨true, ("u2").toList, true, true⟩
        (⟨[⟨1, ("t").toList, ("d").toList, ("u").toList, []⟩], [], 0, 2⟩ : Store) 1
        { (⟨none, none, none, RawTags.absent⟩ : UpdateReq) with title := none } :=
  ⟨by decide,
    (c10_empty_like_omitted ⟨true, ("u2").toList, true, true⟩
      (⟨[⟨1, ("t").toList, ("d").toList, ("u").toList, []⟩], [], 0, 2⟩ : Store) 1
      (⟨none, none, none, RawTags.absent⟩ : UpdateReq)
      ⟨1, ("t").toList, ("d").toList, ("u").toList, []⟩ (by decide)).1⟩

theorem c9_slugify_shape_idem_witness :
    ('h' ∈ slugify ("Hi!".toList)) ∧
    (('a' ≤ 'h' ∧ 'h' ≤ 'z') ∨ ('0' ≤ 'h' ∧ 'h' ≤ '9') ∨ 'h' = '-') ∧
    slugify (slugify ("Hi!".toList)) = slugify ("Hi!".toList) :=
  ⟨by decide, (c9_slugify_shape_idem ("Hi!".toList)).1 'h' (by decide),
    (c9_slugify_shape_idem ("Hi!".toList)).2⟩
